import Mathlib

/-!
Verification of the `freeform` crate: a string-keyed metadata container
(`Freeform`) built over a dual-representation memoizing cell (`Sord`)
parameterized by a serialization scheme.

Shallow embedding notes.
* A `Scheme` models the Rust `SerdeScheme`/`SeDe` trait.  Rust's open universe
  of `Serialize`/`DeserializeOwned` types is modelled by a type `Tag` of type
  identifiers (the role `std::any::TypeId` plays in the source) together with
  an interpretation `Val : Tag → Type`; `serialize`/`deserialize` are indexed
  by the tag, and the scheme's native `Value` type is a distinguished tag
  `native`.
* `Sord` mirrors `src/src/sord.rs`: two write-once slots (`OnceLock` fields
  `se` and `de`, here `seSlot`/`deSlot` to avoid clashing with the method
  names) plus the captured serializer function `se_fn`, which is always
  `S::serialize_as_any::<T>` for the `T` of `from_de` and is therefore
  modelled by the captured tag (`seFn`).
* Stateful methods (`de`, `se`) take the cell and return the result together
  with the updated cell and the number of scheme (de)serializer invocations
  performed by that call; `value` takes `&self` and performs no caching, so it
  returns only the result.  A `panic!`/`expect`/`unreachable!` is modelled by
  an outer `Option` being `none`.
* Spec names map to source names as follows: `fromValue` = `from_de`,
  `fromValueRef` = `from_de_ref`, `fromSerializedText` = `from_se`,
  `fromNativeValue` = `from_value`, `typedView` = `de`,
  `serializedView` = `se`, `nativeValue` = `value`.
-/

set_option autoImplicit false

namespace FreeformVerif

/-- A serialization scheme: the `SerdeScheme` trait of `src/src/scheme.rs`
(equivalently the `SeDe` trait of `src/src/sede.rs`).  `Tag` is the universe
of runtime type identifiers, `Val` interprets each tag as a Lean type,
`native` is the tag of the scheme's native `Value` type. -/
structure Scheme where
  Tag : Type
  deq : DecidableEq Tag
  Val : Tag → Type
  Error : Type
  native : Tag
  serialize : (t : Tag) → Val t → Except Error String
  deserialize : (t : Tag) → String → Except Error (Val t)

instance (S : Scheme) : DecidableEq S.Tag := S.deq

/-- An erased value: `Arc<dyn Any>` tagged with the `TypeId` of the value it
holds. -/
abbrev AnyVal (S : Scheme) : Type := Σ t : S.Tag, S.Val t

/-- `SordError<S>` from `src/src/sord.rs`. -/
inductive SordError (ε : Type) where
  | seDeError : ε → SordError ε
  | wrongTypeError : SordError ε
deriving DecidableEq

/-- `Sord<S>` from `src/src/sord.rs`: `seSlot` is the `se: OnceLock<Result<String, SordError>>`
field, `deSlot` the `de: OnceLock<Result<Arc<dyn Any>, SordError>>` field
(erased value plus type tag), `seFn` the captured `se_fn` serializer, recorded
as the tag it was monomorphized at. -/
structure Sord (S : Scheme) where
  seSlot : Option (Except (SordError S.Error) String)
  deSlot : Option (Except (SordError S.Error) (AnyVal S))
  seFn : Option S.Tag

/-- `downcast_ref::<T>` on an erased value: succeeds exactly when the stored
tag equals the requested tag. -/
def downcastTo {S : Scheme} (a : AnyVal S) (t : S.Tag) :
    Except (SordError S.Error) (S.Val t) :=
  if h : a.1 = t then Except.ok (h ▸ a.2) else Except.error SordError.wrongTypeError

/-- The `.as_ref().and_then(|de| de.downcast_ref::<T>().ok_or(WrongTypeError))`
step at the end of `Sord::de`: propagate a cached error, otherwise downcast. -/
def deResult {S : Scheme} (r : Except (SordError S.Error) (AnyVal S)) (t : S.Tag) :
    Except (SordError S.Error) (S.Val t) :=
  match r with
  | Except.error e => Except.error e
  | Except.ok a => downcastTo a t

namespace Sord

variable {S : Scheme}

/-- `Sord::from_de` (spec: `fromValue`): populate the typed slot with the
erased, tagged value and capture `serialize_as_any::<T>`. -/
def from_de (S : Scheme) (t : S.Tag) (v : S.Val t) : Sord S :=
  { seSlot := none
    deSlot := some (Except.ok ⟨t, v⟩)
    seFn := some t }

/-- `Sord::from_se` (spec: `fromSerializedText`): populate the serialized slot
verbatim. -/
def from_se (S : Scheme) (text : String) : Sord S :=
  { seSlot := some (Except.ok text)
    deSlot := none
    seFn := none }

/-- `Sord::from_de_ref` (spec: `fromValueRef`): serialize immediately and store
only the text; fails if serialization fails. -/
def from_de_ref (t : S.Tag) (v : S.Val t) : Except (SordError S.Error) (Sord S) :=
  match S.serialize t v with
  | Except.error e => Except.error (SordError.seDeError e)
  | Except.ok text =>
      Except.ok { seSlot := some (Except.ok text), deSlot := none, seFn := none }

/-- `Sord::from_value` (spec: `fromNativeValue`): serialize the scheme-native
value immediately and store only the text. -/
def from_value (v : S.Val S.native) : Except (SordError S.Error) (Sord S) :=
  match S.serialize S.native v with
  | Except.error e => Except.error (SordError.seDeError e)
  | Except.ok text =>
      Except.ok { seSlot := some (Except.ok text), deSlot := none, seFn := none }

/-- `Sord::de::<T>` (spec: `typedView`).  Returns the view result, the updated
cell, and how many times this call invoked the scheme's deserializer; `none`
models a panic (`expect` on an uninitialized or error-initialized `se` slot).
The `get_or_init` closure runs only when the typed slot is unpopulated; its
result — success or `SeDeError` — is cached.  The downcast happens outside the
cache on every call. -/
def de (s : Sord S) (t : S.Tag) :
    Option (Except (SordError S.Error) (S.Val t) × Sord S × Nat) :=
  match s.deSlot with
  | some r => some (deResult r t, s, 0)
  | none =>
    match s.seSlot with
    | none => none
    | some (Except.error _) => none
    | some (Except.ok text) =>
      match S.deserialize t text with
      | Except.error e =>
          let r : Except (SordError S.Error) (AnyVal S) :=
            Except.error (SordError.seDeError e)
          some (deResult r t, { s with deSlot := some r }, 1)
      | Except.ok v =>
          let r : Except (SordError S.Error) (AnyVal S) := Except.ok ⟨t, v⟩
          some (deResult r t, { s with deSlot := some r }, 1)

/-- `Sord::se::<T>` (spec: `serializedView`).  Returns the view result, the
updated cell, and how many times this call invoked the scheme's serializer;
`none` models a panic.  The `get_or_init` closure runs only when the
serialized slot is unpopulated; note that the closure's result is cached even
when it is the `WrongTypeError` produced by a failed downcast. -/
def se (s : Sord S) (t : S.Tag) :
    Option (Except (SordError S.Error) String × Sord S × Nat) :=
  match s.seSlot with
  | some r => some (r, s, 0)
  | none =>
    match s.deSlot with
    | none => none
    | some (Except.error _) => none
    | some (Except.ok a) =>
      if h : a.1 = t then
        let r := (S.serialize t (h ▸ a.2)).mapError SordError.seDeError
        some (r, { s with seSlot := some r }, 1)
      else
        let r : Except (SordError S.Error) String :=
          Except.error SordError.wrongTypeError
        some (r, { s with seSlot := some r }, 0)

/-- `Sord::value` (spec: `nativeValue`).  Read-only: if the serialized slot
holds text, deserialize it into the native value; otherwise go through the
captured `se_fn` on the typed slot (panicking — `none` — if `se_fn` is absent
or its unchecked downcast fails) and deserialize the produced text; panics
(`unreachable!`) when neither slot holds a success. -/
def value (s : Sord S) : Option (Except (SordError S.Error) (S.Val S.native)) :=
  match s.seSlot with
  | some (Except.ok text) =>
      some ((S.deserialize S.native text).mapError SordError.seDeError)
  | _ =>
    match s.deSlot with
    | some (Except.ok a) =>
      match s.seFn with
      | none => none
      | some tf =>
        if h : a.1 = tf then
          match S.serialize tf (h ▸ a.2) with
          | Except.error e => some (Except.error (SordError.seDeError e))
          | Except.ok text =>
              some ((S.deserialize S.native text).mapError SordError.seDeError)
        else none
    | _ => none

end Sord

/-- `FreeformErr<S>` from `src/src/lib.rs` (named `FreeformErr` there as well;
`freeform.rs` is an identical historical variant). -/
inductive FreeformErr (ε : Type) where
  | serdeError : ε → FreeformErr ε
  | requiredKeyNotFound : String → FreeformErr ε
  | keyTypeDoesNotMatch : FreeformErr ε
deriving DecidableEq

/-- The `From<&SordError<S>> for FreeformErr<S>` conversion. -/
def FreeformErr.ofSord {ε : Type} : SordError ε → FreeformErr ε
  | SordError.wrongTypeError => FreeformErr.keyTypeDoesNotMatch
  | SordError.seDeError e => FreeformErr.serdeError e

/-- A `typed_key::Key<T>`: an opaque (name, type) pair; the type parameter is
modelled by the scheme tag it identifies. -/
structure Key (S : Scheme) where
  name : String
  tag : S.Tag

/-- `Freeform<S>` from `src/src/lib.rs`: a `HashMap<String, Sord<S>>`,
modelled as an association list with unique keys (the extra `i32` field of the
`lib.rs` variant is serde-skipped, always `0`, and carries no behavior). -/
structure Freeform (S : Scheme) where
  entries : List (String × Sord S)

namespace Freeform

variable {S : Scheme}

/-- Association-list search: first (and, on unique-keyed maps, only)
binding for a key. -/
def lookupGo : List (String × Sord S) → String → Option (Sord S)
  | [], _ => none
  | e :: rest, k => if e.1 = k then some e.2 else lookupGo rest k

/-- `HashMap::get` by key name. -/
def lookup (f : Freeform S) (k : String) : Option (Sord S) :=
  lookupGo f.entries k

/-- Remove every binding for a key (at most one on a unique-keyed map). -/
def eraseKey (l : List (String × Sord S)) (k : String) : List (String × Sord S) :=
  match l with
  | [] => []
  | e :: rest => if e.1 = k then eraseKey rest k else e :: eraseKey rest k

/-- `HashMap::insert`: replace any existing binding for the key. -/
def insert (f : Freeform S) (k : String) (s : Sord S) : Freeform S :=
  ⟨(k, s) :: eraseKey f.entries k⟩

/-- The map has unique keys — every `HashMap` does by construction. -/
def WF (f : Freeform S) : Prop := (f.entries.map Prod.fst).Nodup

/-- `Freeform::put`: store `Sord::from_de(value)` under the key's name
(the source returns `Result` but is always `Ok(())`). -/
def put (f : Freeform S) (k : Key S) (v : S.Val k.tag) : Freeform S :=
  f.insert k.name (Sord.from_de S k.tag v)

/-- `Freeform::get_optional`: absent key is `Ok(None)`; a present key
delegates to the entry's `de::<T>()`, mapping its errors through
`FreeformErr::from`.  The outer `Option` models the (unreachable) panic
inside `Sord::de`. -/
def get_optional (f : Freeform S) (k : Key S) :
    Option (Except (FreeformErr S.Error) (Option (S.Val k.tag))) :=
  match f.lookup k.name with
  | some sord =>
      (Sord.de sord k.tag).map (fun p => (p.1.map some).mapError FreeformErr.ofSord)
  | none => some (Except.ok none)

/-- `Freeform::get_required`: absent key is `RequiredKeyNotFound(name)`;
a present key delegates to the entry's `de::<T>()`. -/
def get_required (f : Freeform S) (k : Key S) :
    Option (Except (FreeformErr S.Error) (S.Val k.tag)) :=
  match f.lookup k.name with
  | some sord =>
      (Sord.de sord k.tag).map (fun p => p.1.mapError FreeformErr.ofSord)
  | none => some (Except.error (FreeformErr.requiredKeyNotFound k.name))

/-- `Extend<(String, Sord<S>)> for Freeform`: insert every entry of `g` into
`f`, later entries overwriting earlier bindings. -/
def extend (f g : Freeform S) : Freeform S :=
  List.foldl (fun acc e => insert acc e.1 e.2) f g.entries

/-- `Freeform::aggregate`: `into_iter().reduce(|acm, e| { acm.extend(e); acm })`
— a left fold of `extend` seeded with the first container; `none` on empty
input. -/
def aggregate (fs : List (Freeform S)) : Option (Freeform S) :=
  match fs with
  | [] => none
  | f :: rest => some (List.foldl extend f rest)

/-- Entry-wise conversion used by `From<Freeform<S>> for HashMap<String, S::Value>`:
each entry goes through `sord.value().expect("Should be able to serialize")`;
the expect's panic (on `Err` or on a panic inside `value` itself) is modelled
by `none`. -/
def toValueGo : List (String × Sord S) → Option (List (String × S.Val S.native))
  | [] => some []
  | e :: rest =>
    match Sord.value e.2 with
    | some (Except.ok v) => (toValueGo rest).map (fun m => (e.1, v) :: m)
    | _ => none

/-- `From<Freeform<S>> for HashMap<String, S::Value>`. -/
def toValueMap (f : Freeform S) : Option (List (String × S.Val S.native)) :=
  toValueGo f.entries

end Freeform

/-! ### A small concrete scheme

A two-type universe (`Nat` and `String`) with an executable codec, used to
evaluate the model on concrete inputs.  Its shape matches the JSON adapter
restricted to those two types: numbers print as decimal digit strings, strings
pass through verbatim; the native value type is the string side, and a
distinguished text (`"BAD"`) fails to parse, giving the scheme a reachable
deserialization failure. -/

inductive TTag where
  | tnat
  | tstr
deriving DecidableEq

abbrev TVal : TTag → Type
  | TTag.tnat => Nat
  | TTag.tstr => String

def parseNatChars : List Char → Nat → Option Nat
  | [], acc => some acc
  | c :: rest, acc =>
      if c.isDigit then parseNatChars rest (10 * acc + (c.toNat - 48)) else none

def parseNat (s : String) : Option Nat :=
  match s.data with
  | [] => none
  | l => parseNatChars l 0

def toySerialize : (t : TTag) → TVal t → Except Unit String
  | TTag.tnat, n => Except.ok (Nat.repr n)
  | TTag.tstr, s => Except.ok s

def toyDeserialize : (t : TTag) → String → Except Unit (TVal t)
  | TTag.tnat, s =>
    match parseNat s with
    | some n => Except.ok n
    | none => Except.error ()
  | TTag.tstr, s => if s = "BAD" then Except.error () else Except.ok s

abbrev Toy : Scheme :=
  { Tag := TTag
    deq := inferInstance
    Val := TVal
    Error := Unit
    native := TTag.tstr
    serialize := toySerialize
    deserialize := toyDeserialize }

/-! ### Claim theorems -/

/-- C1: for every scheme, container, typed key `k` and value `v`,
`put(k, v)` followed by `getRequired(k)` returns `Ok` with the stored value —
in fact the very value, since `put` stores the typed slot and `getRequired`
reads it back without any intermediate serialization. -/
theorem put_get_required_roundtrip (S : Scheme) (f : Freeform S) (k : Key S)
    (v : S.Val k.tag) :
    Freeform.get_required (Freeform.put f k v) k = some (Except.ok v) := by
  simp [Freeform.get_required, Freeform.put, Freeform.insert, Freeform.lookup,
    Freeform.lookupGo, Sord.de, Sord.from_de, deResult, downcastTo,
    Except.mapError]

/-- C2: a `Sord` built by `from_de` (spec `fromValue`) at type `tu`, asked for
a typed view at a different type `tt`, returns `WrongTypeError` — no panic
(the result is `some`), no value of the requested type, and the cell is left
unchanged. -/
theorem de_wrong_type (S : Scheme) (tu tt : S.Tag) (v : S.Val tu)
    (h : tu ≠ tt) :
    Sord.de (Sord.from_de S tu v) tt
      = some (Except.error SordError.wrongTypeError, Sord.from_de S tu v, 0) := by
  simp [Sord.de, Sord.from_de, deResult, downcastTo, h]

theorem de_wrong_type_witness :
    Sord.de (Sord.from_de Toy TTag.tnat 42) TTag.tstr
      = some (Except.error SordError.wrongTypeError, Sord.from_de Toy TTag.tnat 42, 0) :=
  de_wrong_type Toy TTag.tnat TTag.tstr 42 (by decide)

/-- C3: on a `Sord` whose typed slot is unpopulated and whose serialized slot
holds text the scheme cannot deserialize at type `t`, the first `de` call
invokes the deserializer once, caches the `SeDeError`, and returns it; every
subsequent `de` call — at any requested type — returns the same cached
`SeDeError` from the unchanged cell with zero deserializer invocations. -/
theorem de_caches_scheme_failure (S : Scheme) (s : Sord S) (text : String)
    (t : S.Tag) (e : S.Error)
    (hde : s.deSlot = none)
    (hse : s.seSlot = some (Except.ok text))
    (hfail : S.deserialize t text = Except.error e) :
    Sord.de s t
      = some (Except.error (SordError.seDeError e),
          { s with deSlot := some (Except.error (SordError.seDeError e)) }, 1)
    ∧ ∀ u, Sord.de { s with deSlot := some (Except.error (SordError.seDeError e)) } u
      = some (Except.error (SordError.seDeError e),
          { s with deSlot := some (Except.error (SordError.seDeError e)) }, 0) := by
  constructor
  · simp [Sord.de, hde, hse, hfail, deResult]
  · intro u
    simp [Sord.de, deResult]

theorem de_caches_scheme_failure_witness :
    Sord.de (Sord.from_se Toy "abc") TTag.tnat
      = some (Except.error (SordError.seDeError ()),
          { Sord.from_se Toy "abc" with
              deSlot := some (Except.error (SordError.seDeError ())) }, 1)
    ∧ ∀ u, Sord.de
        { Sord.from_se Toy "abc" with
            deSlot := some (Except.error (SordError.seDeError ())) } u
      = some (Except.error (SordError.seDeError ()),
          { Sord.from_se Toy "abc" with
              deSlot := some (Except.error (SordError.seDeError ())) }, 0) :=
  de_caches_scheme_failure Toy (Sord.from_se Toy "abc") "abc" TTag.tnat () rfl rfl rfl

/-- C6: representation equivalence — when serialized text `text` deserializes
at type `t` to the value `v`, the typed view of `fromSerializedText text` and
the typed view of `fromValue v` return the same result, namely `Ok v`. -/
theorem representation_equivalence (S : Scheme) (t : S.Tag) (text : String)
    (v : S.Val t) (h : S.deserialize t text = Except.ok v) :
    (Sord.de (Sord.from_se S text) t).map (fun p => p.1)
      = (Sord.de (Sord.from_de S t v) t).map (fun p => p.1)
    ∧ (Sord.de (Sord.from_se S text) t).map (fun p => p.1) = some (Except.ok v)
    ∧ (Sord.de (Sord.from_de S t v) t).map (fun p => p.1) = some (Except.ok v) := by
  refine ⟨?_, ?_, ?_⟩
  · simp [Sord.de, Sord.from_se, Sord.from_de, h, deResult, downcastTo]
  · simp [Sord.de, Sord.from_se, h, deResult, downcastTo]
  · simp [Sord.de, Sord.from_de, deResult, downcastTo]

theorem representation_equivalence_witness :
    (Sord.de (Sord.from_se Toy "42") TTag.tnat).map (fun p => p.1)
      = (Sord.de (Sord.from_de Toy TTag.tnat 42) TTag.tnat).map (fun p => p.1)
    ∧ (Sord.de (Sord.from_se Toy "42") TTag.tnat).map (fun p => p.1)
      = some (Except.ok 42)
    ∧ (Sord.de (Sord.from_de Toy TTag.tnat 42) TTag.tnat).map (fun p => p.1)
      = some (Except.ok 42) :=
  representation_equivalence Toy TTag.tnat "42" 42 rfl

/-- C4 counterexample: on `Sord.from_de Toy TTag.tnat 42` the scheme
serializes `42` successfully, yet after an earlier mismatched
`se TTag.tstr` call — which caches `WrongTypeError` into the serialized
slot — the correctly typed `se TTag.tnat` call returns that cached
`WrongTypeError` rather than `Ok "42"`: a `WrongType` result from `se` does
corrupt the cell's serialized slot. -/
theorem se_wrongtype_corrupts_counterexample :
    Toy.serialize TTag.tnat 42 = Except.ok "42"
    ∧ Sord.se (Sord.from_de Toy TTag.tnat 42) TTag.tstr
        = some (Except.error SordError.wrongTypeError,
            { Sord.from_de Toy TTag.tnat 42 with
                seSlot := some (Except.error SordError.wrongTypeError) }, 0)
    ∧ Sord.se
        { Sord.from_de Toy TTag.tnat 42 with
            seSlot := some (Except.error SordError.wrongTypeError) } TTag.tnat
        = some (Except.error SordError.wrongTypeError,
            { Sord.from_de Toy TTag.tnat 42 with
                seSlot := some (Except.error SordError.wrongTypeError) }, 0) :=
  ⟨rfl, rfl, rfl⟩

/-- C4 (amended): on a `Sord` built by `from_de` whose value serializes
successfully, `se` at the matching type returns `Ok` with the serialization —
on the first call (caching it) and on every later call — provided no earlier
mismatched `se` call was made; a mismatched `se` call made first instead
caches `WrongTypeError` into the serialized slot permanently, and the
correctly typed `se` then returns that cached error. -/
theorem se_from_de_amended (S : Scheme) (t : S.Tag) (v : S.Val t) (str : String)
    (h : S.serialize t v = Except.ok str) :
    Sord.se (Sord.from_de S t v) t
      = some (Except.ok str,
          { Sord.from_de S t v with seSlot := some (Except.ok str) }, 1)
    ∧ Sord.se { Sord.from_de S t v with seSlot := some (Except.ok str) } t
      = some (Except.ok str,
          { Sord.from_de S t v with seSlot := some (Except.ok str) }, 0)
    ∧ ∀ u, u ≠ t →
        Sord.se (Sord.from_de S t v) u
          = some (Except.error SordError.wrongTypeError,
              { Sord.from_de S t v with
                  seSlot := some (Except.error SordError.wrongTypeError) }, 0)
        ∧ Sord.se
            { Sord.from_de S t v with
                seSlot := some (Except.error SordError.wrongTypeError) } t
          = some (Except.error SordError.wrongTypeError,
              { Sord.from_de S t v with
                  seSlot := some (Except.error SordError.wrongTypeError) }, 0) := by
  refine ⟨?_, ?_, ?_⟩
  · simp [Sord.se, Sord.from_de, h, Except.mapError]
  · simp [Sord.se]
  · intro u hu
    constructor
    · simp [Sord.se, Sord.from_de, Ne.symm hu]
    · simp [Sord.se]

theorem se_from_de_amended_witness :
    Sord.se (Sord.from_de Toy TTag.tnat 42) TTag.tnat
      = some (Except.ok "42",
          { Sord.from_de Toy TTag.tnat 42 with seSlot := some (Except.ok "42") }, 1)
    ∧ Sord.se
        { Sord.from_de Toy TTag.tnat 42 with seSlot := some (Except.ok "42") }
        TTag.tnat
      = some (Except.ok "42",
          { Sord.from_de Toy TTag.tnat 42 with seSlot := some (Except.ok "42") }, 0) :=
  ⟨(se_from_de_amended Toy TTag.tnat 42 "42" rfl).1,
   (se_from_de_amended Toy TTag.tnat 42 "42" rfl).2.1⟩

/-- C5: write-once determinism — once `de` (resp. `se`) has been called, a
repeated call at the same type on the resulting cell returns the identical
result (same value or same error), leaves the cell identical, and performs no
scheme invocation; `value` is read-only in the source (no `get_or_init`), so
in this embedding it is a pure function of the cell and repeated calls return
equal results by construction. -/
theorem views_idempotent (S : Scheme) (s : Sord S) (t u : S.Tag)
    (r : Except (SordError S.Error) (S.Val t))
    (q : Except (SordError S.Error) String)
    (s₁ s₂ : Sord S) (n m : Nat) :
    (Sord.de s t = some (r, s₁, n) → Sord.de s₁ t = some (r, s₁, 0))
    ∧ (Sord.se s u = some (q, s₂, m) → Sord.se s₂ u = some (q, s₂, 0)) := by
  constructor
  · intro h
    cases hd : s.deSlot with
    | some rr =>
        simp only [Sord.de, hd, Option.some.injEq, Prod.mk.injEq] at h
        obtain ⟨h1, h2, h3⟩ := h
        subst h1; subst h2
        simp [Sord.de, hd]
    | none =>
        simp only [Sord.de, hd] at h
        cases hs : s.seSlot with
        | none => simp [hs] at h
        | some rs =>
          cases rs with
          | error e => simp [hs] at h
          | ok text =>
            simp only [hs] at h
            cases hdes : S.deserialize t text with
            | error e =>
                simp only [hdes, Option.some.injEq, Prod.mk.injEq] at h
                obtain ⟨h1, h2, h3⟩ := h
                subst h1; subst h2
                simp [Sord.de, deResult]
            | ok w =>
                simp only [hdes, Option.some.injEq, Prod.mk.injEq] at h
                obtain ⟨h1, h2, h3⟩ := h
                subst h1; subst h2
                simp [Sord.de, deResult]
  · intro h
    cases hs : s.seSlot with
    | some rr =>
        simp only [Sord.se, hs, Option.some.injEq, Prod.mk.injEq] at h
        obtain ⟨h1, h2, h3⟩ := h
        subst h1; subst h2
        simp [Sord.se, hs]
    | none =>
        simp only [Sord.se, hs] at h
        cases hd : s.deSlot with
        | none => simp [hd] at h
        | some rd =>
          cases rd with
          | error e => simp [hd] at h
          | ok a =>
            simp only [hd] at h
            by_cases ha : a.1 = u
            · simp only [ha, dif_pos, Option.some.injEq, Prod.mk.injEq] at h
              obtain ⟨h1, h2, h3⟩ := h
              subst h1; subst h2
              simp [Sord.se]
            · simp only [dif_neg ha, Option.some.injEq, Prod.mk.injEq] at h
              obtain ⟨h1, h2, h3⟩ := h
              subst h1; subst h2
              simp [Sord.se]

theorem views_idempotent_witness :
    Sord.de (Sord.from_de Toy TTag.tnat 42) TTag.tnat
      = some (Except.ok 42, Sord.from_de Toy TTag.tnat 42, 0)
    ∧ Sord.se
        { Sord.from_de Toy TTag.tnat 42 with seSlot := some (Except.ok "42") }
        TTag.tnat
      = some (Except.ok "42",
          { Sord.from_de Toy TTag.tnat 42 with seSlot := some (Except.ok "42") }, 0) :=
  ⟨(views_idempotent Toy (Sord.from_de Toy TTag.tnat 42) TTag.tnat TTag.tnat
      (Except.ok 42) (Except.ok "42") (Sord.from_de Toy TTag.tnat 42)
      (Sord.from_de Toy TTag.tnat 42) 0 0).1 rfl,
   (views_idempotent Toy (Sord.from_de Toy TTag.tnat 42) TTag.tnat TTag.tnat
      (Except.ok 42) (Except.ok "42") (Sord.from_de Toy TTag.tnat 42)
      { Sord.from_de Toy TTag.tnat 42 with seSlot := some (Except.ok "42") } 0 1).2 rfl⟩

/-- C9: `get_optional` and `get_required` on an absent key return `Ok(None)`
and `RequiredKeyNotFound(name)` respectively; on a present key both delegate
to the entry's typed view `de`, passing `Ok` through and mapping
`WrongTypeError` to `KeyTypeDoesNotMatch` and `SeDeError` to `SerdeError`. -/
theorem get_error_mapping (S : Scheme) (f : Freeform S) (k : Key S) :
    (f.lookup k.name = none →
        Freeform.get_optional f k = some (Except.ok none)
        ∧ Freeform.get_required f k
            = some (Except.error (FreeformErr.requiredKeyNotFound k.name)))
    ∧ ∀ sord, f.lookup k.name = some sord →
        (∀ v s₁ n, Sord.de sord k.tag = some (Except.ok v, s₁, n) →
            Freeform.get_optional f k = some (Except.ok (some v))
            ∧ Freeform.get_required f k = some (Except.ok v))
        ∧ (∀ s₁ n,
            Sord.de sord k.tag = some (Except.error SordError.wrongTypeError, s₁, n) →
            Freeform.get_optional f k
              = some (Except.error FreeformErr.keyTypeDoesNotMatch)
            ∧ Freeform.get_required f k
              = some (Except.error FreeformErr.keyTypeDoesNotMatch))
        ∧ (∀ e s₁ n,
            Sord.de sord k.tag = some (Except.error (SordError.seDeError e), s₁, n) →
            Freeform.get_optional f k = some (Except.error (FreeformErr.serdeError e))
            ∧ Freeform.get_required f k
              = some (Except.error (FreeformErr.serdeError e))) := by
  constructor
  · intro habs
    constructor
    · simp [Freeform.get_optional, habs]
    · simp [Freeform.get_required, habs]
  · intro sord hpres
    refine ⟨fun v s₁ n hde => ?_, fun s₁ n hde => ?_, fun e s₁ n hde => ?_⟩
    all_goals constructor
    all_goals simp [Freeform.get_optional, Freeform.get_required, hpres, hde,
      Except.mapError, Except.map, FreeformErr.ofSord]

theorem get_error_mapping_witness :
    Freeform.get_optional (⟨[("num", Sord.from_de Toy TTag.tnat 7)]⟩ : Freeform Toy)
        ⟨"num", TTag.tnat⟩
      = some (Except.ok (some 7))
    ∧ Freeform.get_required (⟨[("num", Sord.from_de Toy TTag.tnat 7)]⟩ : Freeform Toy)
        ⟨"missing", TTag.tnat⟩
      = some (Except.error (FreeformErr.requiredKeyNotFound "missing")) :=
  ⟨(((get_error_mapping Toy ⟨[("num", Sord.from_de Toy TTag.tnat 7)]⟩
        ⟨"num", TTag.tnat⟩).2 (Sord.from_de Toy TTag.tnat 7) rfl).1 7
        (Sord.from_de Toy TTag.tnat 7) 0 rfl).1,
   ((get_error_mapping Toy ⟨[("num", Sord.from_de Toy TTag.tnat 7)]⟩
        ⟨"missing", TTag.tnat⟩).1 rfl).2⟩

/-! ### Association-list lemmas for `Freeform` -/

theorem lookupGo_eq_none {S : Scheme} (l : List (String × Sord S)) (x : String)
    (hx : x ∉ l.map Prod.fst) : Freeform.lookupGo l x = none := by
  induction l with
  | nil => rfl
  | cons e rest ih =>
    simp only [List.map_cons, List.mem_cons] at hx
    push_neg at hx
    simp [Freeform.lookupGo, Ne.symm hx.1, ih hx.2]

theorem lookupGo_eraseKey {S : Scheme} (l : List (String × Sord S)) (k x : String) :
    Freeform.lookupGo (Freeform.eraseKey l k) x
      = if x = k then none else Freeform.lookupGo l x := by
  induction l with
  | nil => simp [Freeform.eraseKey, Freeform.lookupGo]
  | cons e rest ih =>
    by_cases hxk : x = k
    · subst hxk
      by_cases hek : e.1 = x
      · simp [Freeform.eraseKey, hek, ih]
      · simp [Freeform.eraseKey, hek, Freeform.lookupGo, ih]
    · by_cases hek : e.1 = k
      · have hex : ¬ e.1 = x := fun h => hxk (h ▸ hek)
        simp [Freeform.eraseKey, hek, ih, hxk, Freeform.lookupGo, hex, Ne.symm hxk]
      · simp [Freeform.eraseKey, hek, Freeform.lookupGo, ih, hxk]

theorem lookup_insert {S : Scheme} (f : Freeform S) (k x : String) (s : Sord S) :
    (f.insert k s).lookup x = if x = k then some s else f.lookup x := by
  by_cases hxk : x = k
  · simp [Freeform.insert, Freeform.lookup, Freeform.lookupGo, hxk]
  · have hkx : ¬ k = x := fun h => hxk h.symm
    simp [Freeform.insert, Freeform.lookup, Freeform.lookupGo, hkx, hxk,
      lookupGo_eraseKey]

theorem lookup_foldl_insert {S : Scheme} :
    ∀ (l : List (String × Sord S)) (f : Freeform S) (x : String),
    (l.map Prod.fst).Nodup →
    (List.foldl (fun acc e => Freeform.insert acc e.1 e.2) f l).lookup x
      = (Freeform.lookupGo l x).or (f.lookup x) := by
  intro l
  induction l with
  | nil => intro f x _; simp [Freeform.lookupGo]
  | cons e rest ih =>
    intro f x hl
    simp only [List.map_cons, List.nodup_cons] at hl
    obtain ⟨he, hrest⟩ := hl
    rw [List.foldl_cons, ih (f.insert e.1 e.2) x hrest]
    by_cases hex : e.1 = x
    · subst hex
      rw [lookupGo_eq_none rest e.1 he]
      simp [Freeform.lookupGo, lookup_insert]
    · simp [Freeform.lookupGo, hex, lookup_insert, Ne.symm hex]

theorem lookup_extend {S : Scheme} (f g : Freeform S) (hg : g.WF) (x : String) :
    (f.extend g).lookup x = (g.lookup x).or (f.lookup x) :=
  lookup_foldl_insert g.entries f x hg

theorem lookup_foldl_extend {S : Scheme} :
    ∀ (fs : List (Freeform S)) (f : Freeform S) (x : String),
    (∀ g ∈ fs, g.WF) →
    (List.foldl Freeform.extend f fs).lookup x
      = (List.findSome? (fun g => Freeform.lookup g x) fs.reverse).or (f.lookup x) := by
  intro fs
  induction fs with
  | nil => intro f x _; simp
  | cons g rest ih =>
    intro f x h
    have hg : g.WF := h g (List.mem_cons_self g rest)
    have hrest : ∀ g2 ∈ rest, g2.WF := fun g2 hg2 => h g2 (List.mem_cons_of_mem _ hg2)
    rw [List.foldl_cons, ih (f.extend g) x hrest, lookup_extend f g hg x,
      List.reverse_cons, List.findSome?_append, Option.or_assoc]
    cases hgx : Freeform.lookup g x with
    | none => simp [List.findSome?_cons, hgx]
    | some v => simp [List.findSome?_cons, hgx]

/-- C7: `aggregate` is a left-fold merge: it returns `none` exactly on the
empty sequence, `some` otherwise, and — on well-formed (unique-keyed) inputs —
every key of the merged container maps to the entry of the latest input
container that binds it (last-write-wins); there is no error case. -/
theorem aggregate_last_write_wins (S : Scheme) (fs : List (Freeform S)) :
    (Freeform.aggregate fs = none ↔ fs = [])
    ∧ (fs ≠ [] → (Freeform.aggregate fs).isSome)
    ∧ ∀ f, Freeform.aggregate fs = some f → (∀ g ∈ fs, Freeform.WF g) →
        ∀ x, f.lookup x
          = List.findSome? (fun g => Freeform.lookup g x) fs.reverse := by
  refine ⟨?_, ?_, ?_⟩
  · cases fs <;> simp [Freeform.aggregate]
  · cases fs <;> simp [Freeform.aggregate]
  · intro f hagg hwf x
    cases fs with
    | nil => simp [Freeform.aggregate] at hagg
    | cons f₀ rest =>
      simp only [Freeform.aggregate, Option.some.injEq] at hagg
      subst hagg
      have hrest : ∀ g ∈ rest, g.WF :=
        fun g hg => hwf g (List.mem_cons_of_mem _ hg)
      rw [lookup_foldl_extend rest f₀ x hrest, List.reverse_cons,
        List.findSome?_append]
      cases hfx : Freeform.lookup f₀ x with
      | none => simp [List.findSome?_cons, hfx]
      | some v => simp [List.findSome?_cons, hfx]

theorem aggregate_last_write_wins_witness :
    Freeform.aggregate ([] : List (Freeform Toy)) = none
    ∧ (Freeform.aggregate
        [(⟨[("a", Sord.from_de Toy TTag.tnat 1)]⟩ : Freeform Toy),
         ⟨[("a", Sord.from_de Toy TTag.tnat 2), ("b", Sord.from_de Toy TTag.tnat 3)]⟩]).isSome
    ∧ Freeform.lookup
        (⟨[("b", Sord.from_de Toy TTag.tnat 3), ("a", Sord.from_de Toy TTag.tnat 2)]⟩ :
          Freeform Toy) "a"
      = some (Sord.from_de Toy TTag.tnat 2)
    ∧ Freeform.lookup
        (⟨[("b", Sord.from_de Toy TTag.tnat 3), ("a", Sord.from_de Toy TTag.tnat 2)]⟩ :
          Freeform Toy) "b"
      = some (Sord.from_de Toy TTag.tnat 3) := by
  refine ⟨(aggregate_last_write_wins Toy []).1.mpr rfl,
    (aggregate_last_write_wins Toy
      [⟨[("a", Sord.from_de Toy TTag.tnat 1)]⟩,
       ⟨[("a", Sord.from_de Toy TTag.tnat 2), ("b", Sord.from_de Toy TTag.tnat 3)]⟩]).2.1
      (by simp),
    ?_, ?_⟩
  · exact ((aggregate_last_write_wins Toy
      [⟨[("a", Sord.from_de Toy TTag.tnat 1)]⟩,
       ⟨[("a", Sord.from_de Toy TTag.tnat 2), ("b", Sord.from_de Toy TTag.tnat 3)]⟩]).2.2
      _ rfl (by intro g hg; fin_cases hg <;> simp [Freeform.WF]) "a").trans rfl
  · exact ((aggregate_last_write_wins Toy
      [⟨[("a", Sord.from_de Toy TTag.tnat 1)]⟩,
       ⟨[("a", Sord.from_de Toy TTag.tnat 2), ("b", Sord.from_de Toy TTag.tnat 3)]⟩]).2.2
      _ rfl (by intro g hg; fin_cases hg <;> simp [Freeform.WF]) "b").trans rfl

/-! ### Entry-wise conversion lemmas -/

theorem toValueGo_iff {S : Scheme} :
    ∀ (l : List (String × Sord S)) (m : List (String × S.Val S.native)),
    Freeform.toValueGo l = some m ↔
      List.Forall₂ (fun e e2 => e.1 = e2.1 ∧ Sord.value e.2 = some (Except.ok e2.2))
        l m := by
  intro l
  induction l with
  | nil =>
    intro m
    constructor
    · intro h
      simp only [Freeform.toValueGo, Option.some.injEq] at h
      subst h
      exact List.Forall₂.nil
    · intro h
      rw [List.forall₂_nil_left_iff] at h
      subst h
      rfl
  | cons e rest ih =>
    intro m
    cases hv : Sord.value e.2 with
    | none =>
      constructor
      · intro h; simp [Freeform.toValueGo, hv] at h
      · intro h
        rcases List.forall₂_cons_left_iff.mp h with ⟨b, m2, ⟨_, hb2⟩, _, rfl⟩
        rw [hv] at hb2
        cases hb2
    | some rr =>
      cases rr with
      | error ex =>
        constructor
        · intro h; simp [Freeform.toValueGo, hv] at h
        · intro h
          rcases List.forall₂_cons_left_iff.mp h with ⟨b, m2, ⟨_, hb2⟩, _, rfl⟩
          rw [hv] at hb2
          cases hb2
      | ok v =>
        constructor
        · intro h
          simp only [Freeform.toValueGo, hv, Option.map_eq_some'] at h
          obtain ⟨m2, hm2, rfl⟩ := h
          exact List.Forall₂.cons ⟨rfl, hv⟩ ((ih m2).mp hm2)
        · intro h
          rcases List.forall₂_cons_left_iff.mp h with ⟨b, m2, ⟨hb1, hb2⟩, hrest, rfl⟩
          obtain ⟨b1, b2⟩ := b
          rw [hv] at hb2
          injection hb2 with hb2
          injection hb2 with hb2
          simp only at hb1
          subst hb1
          subst hb2
          simp only [Freeform.toValueGo, hv, Option.map_eq_some']
          exact ⟨m2, (ih m2).mpr hrest, rfl⟩

theorem toValueGo_none {S : Scheme} :
    ∀ (l : List (String × Sord S)) (e : String × Sord S), e ∈ l →
    (∀ v, Sord.value e.2 ≠ some (Except.ok v)) → Freeform.toValueGo l = none := by
  intro l
  induction l with
  | nil => intro e he _; cases he
  | cons a rest ih =>
    intro e he hfail
    rcases List.mem_cons.mp he with rfl | hmem
    · cases hv : Sord.value e.2 with
      | none => simp [Freeform.toValueGo, hv]
      | some rr =>
        cases rr with
        | error ex => simp [Freeform.toValueGo, hv]
        | ok v => exact absurd hv (hfail v)
    · cases hv : Sord.value a.2 with
      | none => simp [Freeform.toValueGo, hv]
      | some rr =>
        cases rr with
        | error ex => simp [Freeform.toValueGo, hv]
        | ok v => simp [Freeform.toValueGo, hv, ih e hmem hfail]

/-- C10: converting a `Freeform` into the key-name → native-value mapping
returns `some m` exactly when `m` is the entry-wise list of successful
`nativeValue` results (same keys, each value the entry's `value`), and when
some entry's `nativeValue` does not succeed the conversion panics (modelled
`none`) instead of returning an error value. -/
theorem toValueMap_spec (S : Scheme) (f : Freeform S) :
    (∀ m, Freeform.toValueMap f = some m ↔
        List.Forall₂ (fun e e2 => e.1 = e2.1 ∧ Sord.value e.2 = some (Except.ok e2.2))
          f.entries m)
    ∧ ((∃ e ∈ f.entries, ∀ v, Sord.value e.2 ≠ some (Except.ok v)) →
        Freeform.toValueMap f = none) := by
  constructor
  · intro m
    exact toValueGo_iff f.entries m
  · rintro ⟨e, he, hfail⟩
    exact toValueGo_none f.entries e he hfail

theorem toValueMap_spec_witness :
    Freeform.toValueMap (⟨[("k", Sord.from_se Toy "BAD")]⟩ : Freeform Toy) = none :=
  (toValueMap_spec Toy ⟨[("k", Sord.from_se Toy "BAD")]⟩).2
    ⟨("k", Sord.from_se Toy "BAD"), by simp, by
      intro v h
      rw [show Sord.value (Sord.from_se Toy "BAD")
          = some (Except.error (SordError.seDeError ())) from rfl] at h
      simp at h⟩

/-! ### The slot invariant and reachable states -/

/-- The internal invariant of a `Sord`: if the typed slot is unpopulated or
holds an error, the serialized slot holds a success (so `de`'s expects cannot
fire), and if the serialized slot does not hold a success, the typed slot
holds a success whose tag matches the captured serializer (so `se`'s expects
and `value`'s `se_fn` unchecked downcast cannot fire). -/
def SordInv {S : Scheme} (s : Sord S) : Prop :=
  ((s.deSlot = none ∨ ∃ e, s.deSlot = some (Except.error e)) →
      ∃ text, s.seSlot = some (Except.ok text))
  ∧ ((∀ text, s.seSlot ≠ some (Except.ok text)) →
      ∃ t v, s.deSlot = some (Except.ok ⟨t, v⟩) ∧ s.seFn = some t)

/-- The `Sord` states reachable in the source: built by one of the four
constructors, then transformed by any sequence of `de`/`se` calls (`value`
takes `&self` and does not change the cell). -/
inductive Reachable (S : Scheme) : Sord S → Prop where
  | of_from_de (t : S.Tag) (v : S.Val t) : Reachable S (Sord.from_de S t v)
  | of_from_se (text : String) : Reachable S (Sord.from_se S text)
  | of_from_de_ref (t : S.Tag) (v : S.Val t) (s : Sord S)
      (h : Sord.from_de_ref t v = Except.ok s) : Reachable S s
  | of_from_value (v : S.Val S.native) (s : Sord S)
      (h : Sord.from_value v = Except.ok s) : Reachable S s
  | step_de (s : Sord S) (t : S.Tag) (r : Except (SordError S.Error) (S.Val t))
      (s₁ : Sord S) (n : Nat) (hr : Reachable S s)
      (h : Sord.de s t = some (r, s₁, n)) : Reachable S s₁
  | step_se (s : Sord S) (t : S.Tag) (r : Except (SordError S.Error) String)
      (s₁ : Sord S) (n : Nat) (hr : Reachable S s)
      (h : Sord.se s t = some (r, s₁, n)) : Reachable S s₁

theorem de_shape {S : Scheme} {s : Sord S} {t : S.Tag}
    {r : Except (SordError S.Error) (S.Val t)} {s₁ : Sord S} {n : Nat}
    (h : Sord.de s t = some (r, s₁, n)) :
    s₁ = s ∨ (s.deSlot = none ∧ (∃ text, s.seSlot = some (Except.ok text))
      ∧ ∃ rr, s₁ = { s with deSlot := some rr }) := by
  cases hd : s.deSlot with
  | some rr =>
    left
    simp only [Sord.de, hd, Option.some.injEq, Prod.mk.injEq] at h
    exact h.2.1.symm
  | none =>
    cases hs : s.seSlot with
    | none => simp [Sord.de, hd, hs] at h
    | some rs =>
      cases rs with
      | error e => simp [Sord.de, hd, hs] at h
      | ok text =>
        right
        refine ⟨rfl, ⟨text, rfl⟩, ?_⟩
        cases hdes : S.deserialize t text with
        | error e =>
          simp only [Sord.de, hd, hs, hdes, Option.some.injEq, Prod.mk.injEq] at h
          exact ⟨_, h.2.1.symm⟩
        | ok v =>
          simp only [Sord.de, hd, hs, hdes, Option.some.injEq, Prod.mk.injEq] at h
          exact ⟨_, h.2.1.symm⟩

theorem se_shape {S : Scheme} {s : Sord S} {t : S.Tag}
    {r : Except (SordError S.Error) String} {s₁ : Sord S} {n : Nat}
    (h : Sord.se s t = some (r, s₁, n)) :
    s₁ = s ∨ (s.seSlot = none ∧ (∃ t0 v0, s.deSlot = some (Except.ok ⟨t0, v0⟩))
      ∧ ∃ rr, s₁ = { s with seSlot := some rr }) := by
  cases hs : s.seSlot with
  | some rr =>
    left
    simp only [Sord.se, hs, Option.some.injEq, Prod.mk.injEq] at h
    exact h.2.1.symm
  | none =>
    cases hd : s.deSlot with
    | none => simp [Sord.se, hs, hd] at h
    | some rd =>
      cases rd with
      | error e => simp [Sord.se, hs, hd] at h
      | ok a =>
        right
        refine ⟨rfl, ⟨a.1, a.2, rfl⟩, ?_⟩
        simp only [Sord.se, hs, hd] at h
        by_cases ha : a.1 = t
        · rw [dif_pos ha] at h
          simp only [Option.some.injEq, Prod.mk.injEq] at h
          exact ⟨_, h.2.1.symm⟩
        · rw [dif_neg ha] at h
          simp only [Option.some.injEq, Prod.mk.injEq] at h
          exact ⟨_, h.2.1.symm⟩

theorem inv_preserved_de {S : Scheme} {s : Sord S} {t : S.Tag}
    {r : Except (SordError S.Error) (S.Val t)} {s₁ : Sord S} {n : Nat}
    (hinv : SordInv s) (h : Sord.de s t = some (r, s₁, n)) : SordInv s₁ := by
  rcases de_shape h with rfl | ⟨hd, ⟨text, hs⟩, rr, rfl⟩
  · exact hinv
  · constructor
    · intro _
      exact ⟨text, hs⟩
    · intro hne
      exact absurd (show Sord.seSlot { s with deSlot := some rr }
        = some (Except.ok text) from hs) (hne text)

theorem inv_preserved_se {S : Scheme} {s : Sord S} {t : S.Tag}
    {r : Except (SordError S.Error) String} {s₁ : Sord S} {n : Nat}
    (hinv : SordInv s) (h : Sord.se s t = some (r, s₁, n)) : SordInv s₁ := by
  rcases se_shape h with rfl | ⟨hs, ⟨t0, v0, hd⟩, rr, rfl⟩
  · exact hinv
  · constructor
    · intro hcase
      rcases hcase with h1 | ⟨e, h1⟩ <;> simp [hd] at h1
    · intro _
      obtain ⟨t1, v1, hd1, hfn1⟩ := hinv.2 (by intro text h2; rw [hs] at h2; cases h2)
      exact ⟨t1, v1, hd1, hfn1⟩

theorem reachable_inv {S : Scheme} {s : Sord S} (h : Reachable S s) : SordInv s := by
  induction h with
  | of_from_de t v =>
    constructor
    · intro hcase
      rcases hcase with h1 | ⟨e, h1⟩ <;> simp [Sord.from_de] at h1
    · intro _
      exact ⟨t, v, rfl, rfl⟩
  | of_from_se text =>
    constructor
    · intro _
      exact ⟨text, rfl⟩
    · intro hne
      exact absurd rfl (hne text)
  | of_from_de_ref t v s heq =>
    cases hser : S.serialize t v with
    | error e => simp [Sord.from_de_ref, hser] at heq
    | ok text =>
      simp only [Sord.from_de_ref, hser, Except.ok.injEq] at heq
      subst heq
      constructor
      · intro _
        exact ⟨text, rfl⟩
      · intro hne
        exact absurd rfl (hne text)
  | of_from_value v s heq =>
    cases hser : S.serialize S.native v with
    | error e => simp [Sord.from_value, hser] at heq
    | ok text =>
      simp only [Sord.from_value, hser, Except.ok.injEq] at heq
      subst heq
      constructor
      · intro _
        exact ⟨text, rfl⟩
      · intro hne
        exact absurd rfl (hne text)
  | step_de s t r s₁ n hr hstep ih => exact inv_preserved_de ih hstep
  | step_se s t r s₁ n hr hstep ih => exact inv_preserved_se ih hstep

theorem de_isSome_of_inv {S : Scheme} {s : Sord S} (hinv : SordInv s) (t : S.Tag) :
    (Sord.de s t).isSome := by
  cases hd : s.deSlot with
  | some r => simp [Sord.de, hd]
  | none =>
    obtain ⟨text, hs⟩ := hinv.1 (Or.inl hd)
    cases hdes : S.deserialize t text with
    | error e => simp [Sord.de, hd, hs, hdes]
    | ok v => simp [Sord.de, hd, hs, hdes]

theorem se_isSome_of_inv {S : Scheme} {s : Sord S} (hinv : SordInv s) (t : S.Tag) :
    (Sord.se s t).isSome := by
  cases hs : s.seSlot with
  | some r => simp [Sord.se, hs]
  | none =>
    obtain ⟨t0, v0, hd, _⟩ := hinv.2 (by intro text h2; rw [hs] at h2; cases h2)
    simp only [Sord.se, hs, hd]
    split <;> simp

theorem value_isSome_of_inv {S : Scheme} {s : Sord S} (hinv : SordInv s) :
    (Sord.value s).isSome := by
  cases hs : s.seSlot with
  | none =>
    obtain ⟨t0, v0, hd, hfn⟩ := hinv.2 (by intro text h2; rw [hs] at h2; cases h2)
    simp only [Sord.value, hs, hd, hfn]
    cases hser : S.serialize t0 v0 <;> simp [hser]
  | some rs =>
    cases rs with
    | ok text => simp [Sord.value, hs]
    | error e =>
      obtain ⟨t0, v0, hd, hfn⟩ := hinv.2 (by intro text h2; rw [hs] at h2; cases h2)
      simp only [Sord.value, hs, hd, hfn]
      cases hser : S.serialize t0 v0 <;> simp [hser]

theorem de_write_once {S : Scheme} {s : Sord S} {t : S.Tag}
    {r : Except (SordError S.Error) (S.Val t)} {s₁ : Sord S} {n : Nat}
    (h : Sord.de s t = some (r, s₁, n)) :
    s₁.seSlot = s.seSlot ∧ s₁.seFn = s.seFn
      ∧ ∀ x, s.deSlot = some x → s₁.deSlot = some x := by
  rcases de_shape h with rfl | ⟨hd, _, rr, rfl⟩
  · exact ⟨rfl, rfl, fun x hx => hx⟩
  · exact ⟨rfl, rfl, fun x hx => by rw [hd] at hx; cases hx⟩

theorem se_write_once {S : Scheme} {s : Sord S} {t : S.Tag}
    {r : Except (SordError S.Error) String} {s₁ : Sord S} {n : Nat}
    (h : Sord.se s t = some (r, s₁, n)) :
    s₁.deSlot = s.deSlot ∧ s₁.seFn = s.seFn
      ∧ ∀ x, s.seSlot = some x → s₁.seSlot = some x := by
  rcases se_shape h with rfl | ⟨hs, _, rr, rfl⟩
  · exact ⟨rfl, rfl, fun x hx => hx⟩
  · exact ⟨rfl, rfl, fun x hx => by rw [hs] at hx; cases hx⟩

/-- C8: every `Sord` reachable from the four constructors through `de`/`se`
calls (`value` does not mutate) has at least one populated slot; on such a
cell `de`, `se` and `value` always return (`isSome`: no fail-fast
`expect`/`unreachable!` branch executes); and no call ever overwrites or
clears a populated slot or the captured serializer, so populated slots are
permanent. -/
theorem reachable_sord_safe (S : Scheme) (s : Sord S) (h : Reachable S s) :
    (s.seSlot ≠ none ∨ s.deSlot ≠ none)
    ∧ (∀ t, (Sord.de s t).isSome)
    ∧ (∀ t, (Sord.se s t).isSome)
    ∧ (Sord.value s).isSome
    ∧ (∀ (t : S.Tag) r (s₁ : Sord S) n, Sord.de s t = some (r, s₁, n) →
        s₁.seSlot = s.seSlot ∧ s₁.seFn = s.seFn
          ∧ ∀ x, s.deSlot = some x → s₁.deSlot = some x)
    ∧ (∀ (t : S.Tag) r (s₁ : Sord S) n, Sord.se s t = some (r, s₁, n) →
        s₁.deSlot = s.deSlot ∧ s₁.seFn = s.seFn
          ∧ ∀ x, s.seSlot = some x → s₁.seSlot = some x) := by
  have hinv := reachable_inv h
  refine ⟨?_, fun t => de_isSome_of_inv hinv t, fun t => se_isSome_of_inv hinv t,
    value_isSome_of_inv hinv,
    fun t r s₁ n hstep => de_write_once hstep,
    fun t r s₁ n hstep => se_write_once hstep⟩
  cases hs : s.seSlot with
  | some r => left; simp
  | none =>
    right
    obtain ⟨t0, v0, hd, _⟩ := hinv.2 (by intro text h2; rw [hs] at h2; cases h2)
    simp [hd]

theorem reachable_sord_safe_witness :
    ((Sord.from_se Toy "42").seSlot ≠ none ∨ (Sord.from_se Toy "42").deSlot ≠ none)
    ∧ (Sord.value (Sord.from_se Toy "42")).isSome
    ∧ (Sord.de (Sord.from_se Toy "42") TTag.tnat).isSome :=
  ⟨(reachable_sord_safe Toy (Sord.from_se Toy "42") (Reachable.of_from_se "42")).1,
   (reachable_sord_safe Toy (Sord.from_se Toy "42") (Reachable.of_from_se "42")).2.2.2.1,
   (reachable_sord_safe Toy (Sord.from_se Toy "42") (Reachable.of_from_se "42")).2.1 TTag.tnat⟩

end FreeformVerif
